import Mathlib

/-!
Verification of the `aws_lb_target_group` Terraform resource
(`aws/resource_aws_lb_target_group.go`).

The Go source is shallowly embedded: the Terraform `ResourceData` field map
becomes the structure `TGState`, the diff metadata (`HasChange`,
`IsNewResource`, `GetChangedKeysPrefix`) becomes `TGChanges`/`DiffInfo`,
remote ELBv2 API calls become an oracle record `Remote` whose methods return
`Except AwsErr`, and machine integers become `Int` (all values flow through
validated, far-from-overflow ranges). Library helpers used by the source
(`strconv.Atoi`, `strconv.ParseBool`, `strings.Contains`, `strings.ToLower`,
the one regular expression, SDK retry) are modelled explicitly below.
-/

namespace LbTargetGroup

/-! ### String helpers (models of Go's `strings` / `strconv`) -/

/-- Does `p` occur as a contiguous substring of `l`?  Model of
`strings.Contains` (on character lists). -/
def hasSub (p : List Char) : List Char → Bool
  | [] => p.isPrefixOf []
  | c :: t => p.isPrefixOf (c :: t) || hasSub p t

/-- Model of `strings.Contains`. -/
def strContains (s sub : String) : Bool :=
  hasSub sub.toList s.toList

/-- Model of `strings.ToLower` (ASCII-relevant cases). -/
def strToLower (s : String) : String :=
  String.mk (s.toList.map Char.toLower)

/-- Numeric value of a digit list, most significant first. -/
def digitsVal (cs : List Char) : Nat :=
  cs.foldl (fun a c => a * 10 + (c.toNat - 48)) 0

/-- Are all characters decimal digits? -/
def allDigits (cs : List Char) : Bool :=
  cs.all (fun c => c.isDigit)

/-- Result of `strconv.Atoi`: the returned `int` together with an ok flag
(`ok = false` corresponds to `err != nil`; on a syntax error Go returns `0`,
on a range error the value clamped to the `int64` bounds). -/
structure AtoiResult where
  val : Int
  ok : Bool
  deriving DecidableEq

/-- Model of Go's `strconv.Atoi`: optional sign, one or more decimal digits,
64-bit range check with clamping. -/
def goAtoi (s : String) : AtoiResult :=
  match s.toList with
  | [] => ⟨0, false⟩
  | c :: cs =>
    let neg : Bool := c = '-'
    let ds : List Char := if c = '-' || c = '+' then cs else c :: cs
    if ds = [] then ⟨0, false⟩
    else if !allDigits ds then ⟨0, false⟩
    else
      let n : Int := if neg then -(digitsVal ds : Int) else (digitsVal ds : Int)
      if n < -(2 ^ 63) then ⟨-(2 ^ 63), false⟩
      else if n > 2 ^ 63 - 1 then ⟨2 ^ 63 - 1, false⟩
      else ⟨n, true⟩

/-- Model of Go's `strconv.ParseBool`. -/
def goParseBool (s : String) : Option Bool :=
  if s = "1" || s = "t" || s = "T" || s = "true" || s = "TRUE" || s = "True" then some true
  else if s = "0" || s = "f" || s = "F" || s = "false" || s = "FALSE" || s = "False" then
    some false
  else none

/-- Model of Go's `strconv.FormatBool`. -/
def goFormatBool (b : Bool) : String :=
  if b then "true" else "false"

/-! ### ELBv2 SDK constants (`github.com/aws/aws-sdk-go/service/elbv2`) -/

def ProtocolEnumHttp : String := "HTTP"
def ProtocolEnumHttps : String := "HTTPS"
def ProtocolEnumTcp : String := "TCP"
def ProtocolEnumTls : String := "TLS"
def ProtocolEnumUdp : String := "UDP"
def ProtocolEnumTcpUdp : String := "TCP_UDP"
def TargetTypeEnumInstance : String := "instance"
def TargetTypeEnumIp : String := "ip"
def TargetTypeEnumLambda : String := "lambda"
def ErrCodeTargetGroupNotFoundException : String := "TargetGroupNotFound"

/-! ### AWS errors -/

/-- An AWS API error, as observed through `awserr.Error`: a code and a
message. -/
structure AwsErr where
  code : String
  message : String
  deriving DecidableEq

/-- Modelled from the spec: the provider-wide helper `isAWSErr` (defined in
`aws/awserr.go`, outside the given source file) classifies remote API errors;
per the spec's error-handling section an error matches when it is an AWS
error whose code equals `code` and whose message contains `msg` as a
substring (a `nil` error never matches). -/
def isAWSErr (err : Option AwsErr) (code msg : String) : Bool :=
  match err with
  | some e => e.code == code && strContains e.message msg
  | none => false

/-! ### Validators -/

/-- Error message produced by `validateSlowStart`. -/
def slowStartErrMsg (k : String) (v : Int) : String :=
  "\"" ++ k ++ "\" contains an invalid Slow Start Duration \"" ++ toString v ++
    "\". Valid intervals are 30-900 or 0 to disable."

/-- Model of `validateSlowStart`: one error when the value is neither 0 nor
in [30, 900]. -/
def validateSlowStart (v : Int) (k : String) : List String :=
  if v ≠ 0 && !(v ≥ 30 && v ≤ 900) then [slowStartErrMsg k v] else []

/-- Error message produced by `validateAwsLbTargetGroupHealthCheckPort`. -/
def hcPortErrMsg (k : String) : String :=
  "\"" ++ k ++ "\" must be a valid port number (1-65536) or \"traffic-port\""

/-- Model of `validateAwsLbTargetGroupHealthCheckPort`: accepts
`"traffic-port"` as-is, otherwise runs `strconv.Atoi` (an error message for a
failed parse) and then range-checks the returned value (a second possible
error message). -/
def validateAwsLbTargetGroupHealthCheckPort (v : String) (k : String) : List String :=
  if v = "traffic-port" then []
  else
    let r := goAtoi v
    let errs : List String := if r.ok then [] else [hcPortErrMsg k]
    if r.val < 1 || r.val > 65536 then errs ++ [hcPortErrMsg k] else errs

/-! ### The ARN suffix regular expression

`lbTargetGroupSuffixFromARN` runs
`regexp.MustCompile("arn:.*:targetgroup/(.*)").FindAllStringSubmatch(*arn, -1)`.
In that pattern `.` matches any character except a newline and both `.*` are
greedy, so (leftmost-first semantics) a match starts at the first `arn:`
that is followed, within the same line, by `:targetgroup/`; the first `.*`
extends to the **last** such `:targetgroup/` of the line and the capture
extends to the end of the line.  Consequently `FindAll` produces at most one
match per line, and exactly one capture for a line containing a valid ARN. -/

def arnLit : List Char := "arn:".toList

def tgMarker : List Char := ":targetgroup/".toList

def targetgroupLit : List Char := "targetgroup/".toList

/-- Part of the line after the first occurrence of `p` (used with
`p = arnLit`): leftmost match start of the regular expression. -/
def firstSplitAfter (p : List Char) : List Char → Option (List Char)
  | [] => none
  | c :: t =>
    if p.isPrefixOf (c :: t) then some ((c :: t).drop p.length)
    else firstSplitAfter p t

/-- Part of the line after the last occurrence of `p` (used with
`p = tgMarker`): the greedy first `.*` selects the last occurrence. -/
def afterLast (p : List Char) : List Char → Option (List Char)
  | [] => none
  | c :: t =>
    match afterLast p t with
    | some r => some r
    | none =>
      if p.isPrefixOf (c :: t) then some ((c :: t).drop p.length) else none

/-- The capture of the regular expression on a single newline-free line:
everything after the last `:targetgroup/` following (at distance ≥ 4) the
first `arn:`. -/
def singleLineMatch (l : List Char) : Option (List Char) :=
  match firstSplitAfter arnLit l with
  | none => none
  | some rest => afterLast tgMarker rest

/-- Split a character list on newline characters (`n` separators give
`n + 1` pieces), mirroring the fact that no regex match spans a newline. -/
def splitOnNl : List Char → List (List Char)
  | [] => [[]]
  | c :: t =>
    if c = '\n' then [] :: splitOnNl t
    else
      match splitOnNl t with
      | [] => [[c]]
      | h :: r => (c :: h) :: r

/-- Model of `FindAllStringSubmatch(s, -1)` for the target-group pattern,
keeping the capture of each match: one capture per line that matches. -/
def goRegexpFindAllTargetGroup (l : List Char) : List (List Char) :=
  (splitOnNl l).filterMap singleLineMatch

/-- Model of `lbTargetGroupSuffixFromARN` (strings as character lists): `nil`
gives `""`; with exactly one regex match the result is `"targetgroup/"`
followed by the capture, otherwise `""`. -/
def lbTargetGroupSuffixFromARN (arn : Option (List Char)) : List Char :=
  match arn with
  | none => []
  | some s =>
    match goRegexpFindAllTargetGroup s with
    | [suffix] => targetgroupLit ++ suffix
    | _ => []

/-- Executable form of "the string contains `arn:` followed (at distance
≥ 4) by `:targetgroup/`", i.e. the declarative shape of a regex match,
ignoring newlines. -/
def hasArnMarkerPattern : List Char → Bool
  | [] => false
  | c :: t =>
    (arnLit.isPrefixOf (c :: t) && hasSub tgMarker ((c :: t).drop arnLit.length)) ||
      hasArnMarkerPattern t

/-! ### Data model

`TGState` is the Terraform `ResourceData` field map for this resource.
Schema `GetOk` semantics: a string field is "unset" when `""`, an int field
when `0`; `MaxItems: 1` blocks are `Option` of a structure whose fields read
as their zero values when the block or key is absent. -/

/-- The nested `health_check` block. -/
structure HealthCheck where
  enabled : Bool
  interval : Int
  path : String
  port : String
  protocol : String
  timeout : Int
  healthy_threshold : Int
  matcher : String
  unhealthy_threshold : Int
  deriving DecidableEq

/-- The nested `stickiness` block. -/
structure Stickiness where
  enabled : Bool
  type : String
  cookie_duration : Int
  deriving DecidableEq

/-- The resource's local field map (`schema.ResourceData`), including its id. -/
structure TGState where
  id : String
  arn : String
  arn_suffix : String
  name : String
  namePrefix : String
  port : Int
  protocol : String
  vpc_id : String
  deregistration_delay : Int
  slow_start : Int
  proxy_protocol_v2 : Bool
  lambda_multi_value_headers_enabled : Bool
  target_type : String
  load_balancing_algorithm_type : String
  stickiness : Option Stickiness
  health_check : Option HealthCheck
  tags : List (String × String)
  deriving DecidableEq

/-- Reading `stickiness.0.enabled` through `d.Get` (zero value `false` when
the block is absent). -/
def getStickinessEnabled (d : TGState) : Bool :=
  match d.stickiness with
  | some st => st.enabled
  | none => false

/-- Host-engine diff metadata consulted by `Update`: the `HasChange` results,
`IsNewResource`, and the `GetChange("tags")` pair. -/
structure TGChanges where
  tags : Bool
  health_check : Bool
  deregistration_delay : Bool
  slow_start : Bool
  proxy_protocol_v2 : Bool
  stickiness : Bool
  load_balancing_algorithm_type : Bool
  lambda_multi_value_headers_enabled : Bool
  isNew : Bool
  tagsOld : List (String × String)
  tagsNew : List (String × String)

/-- Diff metadata consulted by `CustomizeDiff`: `HasChange` on the three
health-check keys and `GetChangedKeysPrefix("health_check.0")`. -/
structure DiffInfo where
  hasChangeInterval : Bool
  hasChangeHCProtocol : Bool
  hasChangeTimeout : Bool
  changedKeysHC : List String
  deriving DecidableEq

/-- A remote target group as returned by the ELBv2 API (`elbv2.TargetGroup`,
pointer fields as `Option`). -/
structure TargetGroup where
  TargetGroupArn : Option String
  TargetGroupName : Option String
  TargetType : Option String
  HealthCheckEnabled : Option Bool
  HealthCheckIntervalSeconds : Option Int
  HealthCheckPort : Option String
  HealthCheckProtocol : Option String
  HealthCheckTimeoutSeconds : Option Int
  HealthyThresholdCount : Option Int
  UnhealthyThresholdCount : Option Int
  HealthCheckPath : Option String
  MatcherHttpCode : Option String
  VpcId : Option String
  Port : Option Int
  Protocol : Option String
  deriving DecidableEq

/-- `elbv2.CreateTargetGroupInput` (pointer fields as `Option`). -/
structure CreateTargetGroupInput where
  Name : String
  TargetType : String
  Port : Option Int
  Protocol : Option String
  VpcId : Option String
  HealthCheckEnabled : Option Bool
  HealthCheckIntervalSeconds : Option Int
  HealthyThresholdCount : Option Int
  UnhealthyThresholdCount : Option Int
  HealthCheckTimeoutSeconds : Option Int
  HealthCheckPath : Option String
  MatcherHttpCode : Option String
  HealthCheckPort : Option String
  HealthCheckProtocol : Option String
  deriving DecidableEq

/-- `elbv2.ModifyTargetGroupInput` (pointer fields as `Option`). -/
structure ModifyTargetGroupInput where
  TargetGroupArn : String
  HealthCheckEnabled : Option Bool
  HealthyThresholdCount : Option Int
  UnhealthyThresholdCount : Option Int
  HealthCheckTimeoutSeconds : Option Int
  MatcherHttpCode : Option String
  HealthCheckPath : Option String
  HealthCheckIntervalSeconds : Option Int
  HealthCheckPort : Option String
  HealthCheckProtocol : Option String
  deriving DecidableEq

/-- Errors returned by the CRUD handlers.  Each constructor corresponds to
one `fmt.Errorf`/`errors.New` site of the source (the constructor carries the
formatted-in data). -/
inductive TGErr where
  | portShouldBeSet (targetType : String)
  | protocolShouldBeSet (targetType : String)
  | vpcIdShouldBeSet (targetType : String)
  | creating (e : AwsErr)
  | noGroupsReturned
  | retrieving (e : AwsErr)
  | retrievingNotOne (id : String)
  | updatingTags (id : String) (e : AwsErr)
  | modifying (e : AwsErr)
  | modifyingAttrs (e : AwsErr)
  | deleting (e : AwsErr)
  | retrievingAttrs (e : AwsErr)
  | convertingLambdaMvh (v : String)
  | convertingProxyV2 (v : String)
  | convertingSlowStart (v : String)
  | convertingStickinessEnabled (v : String)
  | convertingStickinessDuration (v : String)
  | convertingDeregDelay (v : String)
  | listingTags (id : String) (e : AwsErr)
  | hcMatcherNotSupported (id : String)
  | hcPathNotSupported (id : String)
  | hcTimeoutNotSupported (id : String)
  | hcThresholdMismatch (id : String) (healthy unhealthy : Int)
  | httpTcpHealthCheck
  deriving DecidableEq

/-- The remote AWS control plane, as a response oracle: each method is the
response the API gives to that request.  `Elbv2UpdateTags` and
`Elbv2ListTags` stand for the provider's internal `keyvaluetags` package
(modelled from the spec: remote API errors are propagated with context,
tags are part of the remotely described state). -/
structure Remote where
  CreateTargetGroup : CreateTargetGroupInput → Except AwsErr (List TargetGroup)
  DescribeTargetGroups : String → Except AwsErr (List TargetGroup)
  ModifyTargetGroup : ModifyTargetGroupInput → Except AwsErr Unit
  ModifyTargetGroupAttributes : String → List (String × String) → Except AwsErr Unit
  DescribeTargetGroupAttributes : String → Except AwsErr (List (String × String))
  Elbv2UpdateTags : String → List (String × String) → List (String × String) → Except AwsErr Unit
  Elbv2ListTags : String → Except AwsErr (List (String × String))

/-! ### Schema hooks -/

/-- Model of `suppressIfTargetType`: suppress the diff exactly when the
configured `target_type` equals `t`. -/
def suppressIfTargetType (t : String) (_k _old _new : String) (d : TGState) : Bool :=
  d.target_type == t

/-- The `DiffSuppressFunc` of `stickiness.0.type` (source lines 155-164):
for TCP/UDP/TCP_UDP/TLS protocols, suppress when the new value is
`lb_cookie` while stickiness is disabled. -/
def stickinessTypeDiffSuppress (_k _old new : String) (d : TGState) : Bool :=
  if d.protocol == ProtocolEnumTcp || d.protocol == ProtocolEnumUdp ||
      d.protocol == ProtocolEnumTcpUdp || d.protocol == ProtocolEnumTls then
    if new == "lb_cookie" && !getStickinessEnabled d then true else false
  else false

/-- The `DiffSuppressFunc` of `stickiness.0.cookie_duration` (source lines
171-177): always suppressed for TCP/UDP/TCP_UDP/TLS protocols. -/
def stickinessCookieDurationDiffSuppress (_k _old _new : String) (d : TGState) : Bool :=
  if d.protocol == ProtocolEnumTcp || d.protocol == ProtocolEnumUdp ||
      d.protocol == ProtocolEnumTcpUdp || d.protocol == ProtocolEnumTls then
    true
  else false

/-! ### Create -/

/-- The health-check section of `resourceAwsLbTargetGroupCreate` (source
lines 307-339), filling the request from the `health_check` block. -/
def applyCreateHealthCheck (d : TGState) (p : CreateTargetGroupInput) : CreateTargetGroupInput :=
  match d.health_check with
  | none => p
  | some hc =>
    let p := { p with
      HealthCheckEnabled := some hc.enabled
      HealthCheckIntervalSeconds := some hc.interval
      HealthyThresholdCount := some hc.healthy_threshold
      UnhealthyThresholdCount := some hc.unhealthy_threshold }
    let p := if hc.timeout != 0 then { p with HealthCheckTimeoutSeconds := some hc.timeout } else p
    let p :=
      if hc.protocol != ProtocolEnumTcp then
        let p := if hc.path != "" then { p with HealthCheckPath := some hc.path } else p
        if hc.matcher != "" then { p with MatcherHttpCode := some hc.matcher } else p
      else p
    if d.target_type != TargetTypeEnumLambda then
      { p with HealthCheckPort := some hc.port, HealthCheckProtocol := some hc.protocol }
    else p

/-- The part of `resourceAwsLbTargetGroupCreate` before the remote
`CreateTargetGroup` call (source lines 276-339): name selection, the
non-lambda `port`/`protocol`/`vpc_id` presence validation, and request
construction.  `uniq` stands for `resource.PrefixedUniqueId`. -/
def buildCreateParams (d : TGState) (uniq : String → String) : Except TGErr CreateTargetGroupInput :=
  let groupName :=
    if d.name ≠ "" then d.name
    else if d.namePrefix ≠ "" then uniq d.namePrefix
    else uniq "tf-"
  let params : CreateTargetGroupInput :=
    { Name := groupName, TargetType := d.target_type,
      Port := none, Protocol := none, VpcId := none,
      HealthCheckEnabled := none, HealthCheckIntervalSeconds := none,
      HealthyThresholdCount := none, UnhealthyThresholdCount := none,
      HealthCheckTimeoutSeconds := none, HealthCheckPath := none,
      MatcherHttpCode := none, HealthCheckPort := none, HealthCheckProtocol := none }
  if d.target_type != TargetTypeEnumLambda then
    if d.port == 0 then .error (.portShouldBeSet d.target_type)
    else if d.protocol == "" then .error (.protocolShouldBeSet d.target_type)
    else if d.vpc_id == "" then .error (.vpcIdShouldBeSet d.target_type)
    else .ok (applyCreateHealthCheck d
      { params with Port := some d.port, Protocol := some d.protocol, VpcId := some d.vpc_id })
  else .ok (applyCreateHealthCheck d params)

/-! ### Read -/

/-- The attribute loop of `flattenAwsLbTargetGroupResource` (source lines
654-678). -/
def applyTargetGroupAttrs (d : TGState) : List (String × String) → Except TGErr TGState
  | [] => .ok d
  | (k, v) :: rest =>
    if k == "lambda.multi_value_headers.enabled" then
      match goParseBool v with
      | some b => applyTargetGroupAttrs { d with lambda_multi_value_headers_enabled := b } rest
      | none => .error (.convertingLambdaMvh v)
    else if k == "proxy_protocol_v2.enabled" then
      match goParseBool v with
      | some b => applyTargetGroupAttrs { d with proxy_protocol_v2 := b } rest
      | none => .error (.convertingProxyV2 v)
    else if k == "slow_start.duration_seconds" then
      let r := goAtoi v
      if r.ok then applyTargetGroupAttrs { d with slow_start := r.val } rest
      else .error (.convertingSlowStart v)
    else if k == "load_balancing.algorithm.type" then
      applyTargetGroupAttrs { d with load_balancing_algorithm_type := v } rest
    else applyTargetGroupAttrs d rest

/-- The attribute loop of `flattenAwsLbTargetGroupStickiness` (source lines
699-722), accumulating the partially-built stickiness map and applying the
`deregistration_delay` set. -/
def stickinessFold (d : TGState) (se : Option Bool) (st : Option String) (sc : Option Int) :
    List (String × String) →
      Except TGErr (TGState × Option Bool × Option String × Option Int)
  | [] => .ok (d, se, st, sc)
  | (k, v) :: rest =>
    if k == "stickiness.enabled" then
      match goParseBool v with
      | some b => stickinessFold d (some b) st sc rest
      | none => .error (.convertingStickinessEnabled v)
    else if k == "stickiness.type" then stickinessFold d se (some v) sc rest
    else if k == "stickiness.lb_cookie.duration_seconds" then
      let r := goAtoi v
      if r.ok then stickinessFold d se st (some r.val) rest
      else .error (.convertingStickinessDuration v)
    else if k == "deregistration_delay.timeout_seconds" then
      let r := goAtoi v
      if r.ok then stickinessFold { d with deregistration_delay := r.val } se st sc rest
      else .error (.convertingDeregDelay v)
    else stickinessFold d se st sc rest

/-- Model of `flattenAwsLbTargetGroupStickiness`: the `stickiness` block is
set to the collected map when at least one stickiness key was present,
otherwise to the empty list. -/
def flattenAwsLbTargetGroupStickiness (d : TGState) (attrs : List (String × String)) :
    Except TGErr TGState :=
  match stickinessFold d none none none attrs with
  | .error e => .error e
  | .ok (d, se, st, sc) =>
    let sticky : Option Stickiness :=
      if se.isSome || st.isSome || sc.isSome then
        some { enabled := se.getD false, type := st.getD "", cookie_duration := sc.getD 0 }
      else none
    .ok { d with stickiness := sticky }

/-- Model of `flattenAwsLbTargetGroupResource`: populate the local fields
from the described target group, then its attributes, then its tags. -/
def flattenAwsLbTargetGroupResource (d : TGState) (r : Remote) (tg : TargetGroup) :
    Except TGErr TGState :=
  let d := { d with
    arn := tg.TargetGroupArn.getD ""
    arn_suffix := (lbTargetGroupSuffixFromARN (tg.TargetGroupArn.map String.toList)).asString
    name := tg.TargetGroupName.getD ""
    target_type := tg.TargetType.getD "" }
  let hc : HealthCheck := {
    enabled := tg.HealthCheckEnabled.getD false
    interval := tg.HealthCheckIntervalSeconds.getD 0
    port := tg.HealthCheckPort.getD ""
    protocol := tg.HealthCheckProtocol.getD ""
    timeout := tg.HealthCheckTimeoutSeconds.getD 0
    healthy_threshold := tg.HealthyThresholdCount.getD 0
    unhealthy_threshold := tg.UnhealthyThresholdCount.getD 0
    path := tg.HealthCheckPath.getD ""
    matcher := tg.MatcherHttpCode.getD "" }
  let d :=
    if d.target_type != TargetTypeEnumLambda then
      { d with vpc_id := tg.VpcId.getD "", port := tg.Port.getD 0,
               protocol := tg.Protocol.getD "" }
    else d
  let d := { d with health_check := some hc }
  match r.DescribeTargetGroupAttributes d.id with
  | .error e => .error (.retrievingAttrs e)
  | .ok attrs =>
    match applyTargetGroupAttrs d attrs with
    | .error e => .error e
    | .ok d =>
      match flattenAwsLbTargetGroupStickiness d attrs with
      | .error e => .error e
      | .ok d =>
        match r.Elbv2ListTags d.id with
        | .error e => .error (.listingTags d.id e)
        | .ok tags => .ok { d with tags := tags }

/-- Model of `resourceAwsLbTargetGroupRead`.  On a `TargetGroupNotFound`
describe error the id is cleared and no error is returned; any other
describe error is returned (an `.error` result leaves local state
untouched); a response without exactly one group is an error; otherwise the
state is flattened from the described group. -/
def resourceAwsLbTargetGroupRead (d : TGState) (r : Remote) : Except TGErr TGState :=
  match r.DescribeTargetGroups d.id with
  | .error e =>
    if isAWSErr (some e) ErrCodeTargetGroupNotFoundException "" then .ok { d with id := "" }
    else .error (.retrieving e)
  | .ok tgs =>
    match tgs with
    | [tg] => flattenAwsLbTargetGroupResource d r tg
    | _ => .error (.retrievingNotOne d.id)

/-! ### Update -/

/-- The tags step of `Update` (source lines 378-384). -/
def updateTagsStep (d : TGState) (ch : TGChanges) (r : Remote) : Except TGErr Unit :=
  if ch.tags then
    match r.Elbv2UpdateTags d.id ch.tagsOld ch.tagsNew with
    | .ok _ => .ok ()
    | .error e => .error (.updatingTags d.id e)
  else .ok ()

/-- The `ModifyTargetGroupInput` built by `Update` when `health_check`
changed and the block is present (source lines 387-420); `none` when no
modify call is to be made. -/
def buildModifyTargetGroupInput (d : TGState) (ch : TGChanges) : Option ModifyTargetGroupInput :=
  if ch.health_check then
    match d.health_check with
    | none => none
    | some hc =>
      let p : ModifyTargetGroupInput :=
        { TargetGroupArn := d.id,
          HealthCheckEnabled := some hc.enabled,
          HealthyThresholdCount := some hc.healthy_threshold,
          UnhealthyThresholdCount := some hc.unhealthy_threshold,
          HealthCheckTimeoutSeconds := none, MatcherHttpCode := none,
          HealthCheckPath := none, HealthCheckIntervalSeconds := none,
          HealthCheckPort := none, HealthCheckProtocol := none }
      let p := if hc.timeout != 0 then { p with HealthCheckTimeoutSeconds := some hc.timeout } else p
      let p :=
        if hc.protocol != ProtocolEnumTcp && !ch.isNew then
          { p with MatcherHttpCode := some hc.matcher, HealthCheckPath := some hc.path,
                   HealthCheckIntervalSeconds := some hc.interval }
        else p
      let p :=
        if d.target_type != TargetTypeEnumLambda then
          { p with HealthCheckPort := some hc.port, HealthCheckProtocol := some hc.protocol }
        else p
      some p
  else none

/-- The health-check modify step of `Update` (source lines 386-428). -/
def updateHealthCheckStep (d : TGState) (ch : TGChanges) (r : Remote) : Except TGErr Unit :=
  match buildModifyTargetGroupInput d ch with
  | none => .ok ()
  | some p =>
    match r.ModifyTargetGroup p with
    | .ok _ => .ok ()
    | .error e => .error (.modifying e)

/-- The stickiness attributes contributed by `Update` (source lines
455-488). -/
def stickinessAttrs (d : TGState) : List (String × String) :=
  match d.stickiness with
  | some st =>
    if !st.enabled && st.type == "lb_cookie" && d.protocol != ProtocolEnumHttp &&
        d.protocol != ProtocolEnumHttps then
      []
    else
      [("stickiness.enabled", goFormatBool st.enabled), ("stickiness.type", st.type)] ++
        (if d.protocol == ProtocolEnumHttp || d.protocol == ProtocolEnumHttps then
          [("stickiness.lb_cookie.duration_seconds", toString st.cookie_duration)]
        else [])
  | none => [("stickiness.enabled", "false")]

/-- The target-group attributes accumulated by `Update` (source lines
430-503), keyed by target type. -/
def buildTargetGroupAttrs (d : TGState) (ch : TGChanges) : List (String × String) :=
  if d.target_type == TargetTypeEnumInstance || d.target_type == TargetTypeEnumIp then
    (if ch.deregistration_delay then
      [("deregistration_delay.timeout_seconds", toString d.deregistration_delay)]
    else []) ++
    (if ch.slow_start then [("slow_start.duration_seconds", toString d.slow_start)] else []) ++
    (if ch.proxy_protocol_v2 then
      [("proxy_protocol_v2.enabled", goFormatBool d.proxy_protocol_v2)]
    else []) ++
    (if ch.stickiness then stickinessAttrs d else []) ++
    (if ch.load_balancing_algorithm_type then
      [("load_balancing.algorithm.type", d.load_balancing_algorithm_type)]
    else [])
  else if d.target_type == TargetTypeEnumLambda then
    (if ch.lambda_multi_value_headers_enabled then
      [("lambda.multi_value_headers.enabled", goFormatBool d.lambda_multi_value_headers_enabled)]
    else [])
  else []

/-- The attributes step of `Update` (source lines 505-515): call
`ModifyTargetGroupAttributes` only when some attribute was accumulated. -/
def updateAttrsStep (d : TGState) (ch : TGChanges) (r : Remote) : Except TGErr Unit :=
  let attrs := buildTargetGroupAttrs d ch
  if attrs.isEmpty then .ok ()
  else
    match r.ModifyTargetGroupAttributes d.id attrs with
    | .ok _ => .ok ()
    | .error e => .error (.modifyingAttrs e)

/-- Model of `resourceAwsLbTargetGroupUpdate`: tags, health check and
attributes are pushed remotely in sequence, then the handler finishes by
re-reading the remote resource. -/
def resourceAwsLbTargetGroupUpdate (d : TGState) (ch : TGChanges) (r : Remote) :
    Except TGErr TGState :=
  match updateTagsStep d ch r with
  | .error e => .error e
  | .ok _ =>
    match updateHealthCheckStep d ch r with
    | .error e => .error e
    | .ok _ =>
      match updateAttrsStep d ch r with
      | .error e => .error e
      | .ok _ => resourceAwsLbTargetGroupRead d r

/-- The remote stage of `Create` (source lines 341-350): issue
`CreateTargetGroup` with the built request, wrap its error, require a
non-empty group list, then `SetId` to the returned ARN and tail-call
`Update`. -/
def createRemoteStage (d : TGState) (ch : TGChanges) (r : Remote)
    (p : CreateTargetGroupInput) : Except TGErr TGState :=
  match r.CreateTargetGroup p with
  | .error e => .error (.creating e)
  | .ok [] => .error .noGroupsReturned
  | .ok (tg :: _) =>
    resourceAwsLbTargetGroupUpdate { d with id := tg.TargetGroupArn.getD "" } ch r

/-- Model of `resourceAwsLbTargetGroupCreate`: validation and request
construction, then the remote stage. -/
def resourceAwsLbTargetGroupCreate (d : TGState) (ch : TGChanges) (r : Remote)
    (uniq : String → String) : Except TGErr TGState :=
  match buildCreateParams d uniq with
  | .error e => .error e
  | .ok params => createRemoteStage d ch r params

/-! ### Delete

`resourceAwsLbTargetGroupDelete` wraps `DeleteTargetGroup` in
`resource.Retry(2*time.Minute, ...)`.  Real time is modelled by an attempt
budget `fuel`: the number of `DeleteTargetGroup` calls that fit into the two
minutes (the SDK always performs at least one call; `fuel = 0` is the
degenerate already-timed-out case).  The remote's answer to the `i`-th call
is `res i` (`none` = success). -/

/-- The retryable-error message tested by `Delete`. -/
def tgInUseMsg : String := "is currently in use by a listener or a rule"

/-- Classification performed by the retry closure (source lines 529-539). -/
inductive RetryAction where
  | retryableE (e : Option AwsErr)
  | nonRetryable (e : AwsErr)
  | done
  deriving DecidableEq

/-- Model of the function literal passed to `resource.Retry`: `ResourceInUse`
with the in-use message is retryable, any other non-nil error is
non-retryable, nil is success. -/
def deleteRetryFunc (err : Option AwsErr) : RetryAction :=
  if isAWSErr err "ResourceInUse" tgInUseMsg then .retryableE err
  else
    match err with
    | some e => .nonRetryable e
    | none => .done

/-- Outcome of the `resource.Retry` loop. -/
inductive RetryOut where
  | ok
  | failed (e : AwsErr)
  | timedOut (n : Nat)
  deriving DecidableEq

/-- Model of `resource.Retry` (from the plugin SDK): run the closure
repeatedly, continuing on retryable errors while the budget lasts;
`timedOut n` records that `n` attempts were made when time ran out. -/
def runRetry (res : Nat → Option AwsErr) : Nat → Nat → RetryOut
  | 0, i => .timedOut i
  | fuel + 1, i =>
    match deleteRetryFunc (res i) with
    | .retryableE _ => runRetry res fuel (i + 1)
    | .nonRetryable e => .failed e
    | .done => .ok

/-- The remote answers attempt `j` of the delete loop with a retryable
in-use error. -/
def deleteRetryableAt (res : Nat → Option AwsErr) (j : Nat) : Prop :=
  ∃ e, res j = some e ∧ isAWSErr (some e) "ResourceInUse" tgInUseMsg = true

/-- Model of `resourceAwsLbTargetGroupDelete` (source lines 520-551): the
retry loop, then — only if the loop ended with a timeout error
(`isResourceTimeoutError`, a provider helper outside the source file,
modelled from the spec as recognising exactly the retry loop's timeout) —
one final unconditional `DeleteTargetGroup` attempt; any remaining error is
returned wrapped. -/
def resourceAwsLbTargetGroupDelete (fuel : Nat) (res : Nat → Option AwsErr) : Option TGErr :=
  match runRetry res fuel 0 with
  | .ok => none
  | .failed e => some (.deleting e)
  | .timedOut n =>
    match res n with
    | none => none
    | some e => some (.deleting e)

/-! ### CustomizeDiff -/

/-- The TCP health-check plan-time validation of `CustomizeDiff` (source
lines 739-762): the first failing check, if any, in source order. -/
def tcpHealthCheckPlanError (d : TGState) : Option TGErr :=
  match d.health_check with
  | some hc =>
    if hc.protocol == ProtocolEnumTcp then
      if hc.matcher != "" then some (.hcMatcherNotSupported d.id)
      else if hc.path != "" then some (.hcPathNotSupported d.id)
      else if hc.timeout != 0 && d.id == "" then some (.hcTimeoutNotSupported d.id)
      else if hc.healthy_threshold != hc.unhealthy_threshold then
        some (.hcThresholdMismatch d.id hc.healthy_threshold hc.unhealthy_threshold)
      else none
    else none
  | none => none

/-- The HTTP-protocol exclusion of `CustomizeDiff` (source lines 764-772):
an HTTP(S) target group cannot use a TCP health check. -/
def httpTcpPlanError (d : TGState) : Option TGErr :=
  if strContains d.protocol ProtocolEnumHttp then
    match d.health_check with
    | some hc => if strToLower hc.protocol == "tcp" then some .httpTcpHealthCheck else none
    | none => none
  else none

/-- The `ForceNew` keys marked by `CustomizeDiff` on an existing TCP target
group (source lines 778-799), in source order. -/
def tcpForceNewKeys (di : DiffInfo) : List String :=
  (if di.hasChangeInterval then ["health_check.0.interval"] else []) ++
    (if di.hasChangeHCProtocol && !di.changedKeysHC.isEmpty then
      ["health_check.0.protocol"]
    else []) ++
    (if di.hasChangeTimeout then ["health_check.0.timeout"] else [])

/-- Model of `resourceAwsLbTargetGroupCustomizeDiff` (source lines 734-801).
It performs no remote call: plan-time validation of TCP health checks, the
HTTP/TCP health-check exclusion, and — for existing TCP target groups —
`ForceNew` on changed health-check interval/protocol/timeout.  The `ok`
result carries the keys marked `ForceNew`, in source order. -/
def resourceAwsLbTargetGroupCustomizeDiff (d : TGState) (di : DiffInfo) :
    Except TGErr (List String) :=
  match tcpHealthCheckPlanError d with
  | some e => .error e
  | none =>
    match httpTcpPlanError d with
    | some e => .error e
    | none =>
      if d.id == "" then .ok []
      else if d.protocol == ProtocolEnumTcp then .ok (tcpForceNewKeys di)
      else .ok []

/-- Is an error one of the four TCP health-check plan-time validation
errors? -/
def isTcpHcValidationErr : TGErr → Bool
  | .hcMatcherNotSupported _ => true
  | .hcPathNotSupported _ => true
  | .hcTimeoutNotSupported _ => true
  | .hcThresholdMismatch _ _ _ => true
  | _ => false

/-! ### Concrete fixtures (used by witnesses) -/

/-- A TCP health check passing every plan-time check. -/
def exHcTcpOk : HealthCheck :=
  { enabled := true, interval := 30, path := "", port := "traffic-port", protocol := "TCP",
    timeout := 0, healthy_threshold := 3, matcher := "", unhealthy_threshold := 3 }

/-- A TCP health check with a non-empty matcher. -/
def exHcTcpBadMatcher : HealthCheck :=
  { exHcTcpOk with matcher := "200" }

/-- A baseline resource state. -/
def exState : TGState :=
  { id := "arn:aws:elasticloadbalancing:us-east-1:123456789012:targetgroup/tf-tg/abc123",
    arn := "", arn_suffix := "", name := "tf-tg", namePrefix := "", port := 80,
    protocol := "TCP", vpc_id := "vpc-1", deregistration_delay := 300, slow_start := 0,
    proxy_protocol_v2 := false, lambda_multi_value_headers_enabled := false,
    target_type := "instance", load_balancing_algorithm_type := "",
    stickiness := none, health_check := some exHcTcpOk, tags := [] }

/-- The baseline state with the bad-matcher TCP health check. -/
def exStateBadMatcher : TGState :=
  { exState with health_check := some exHcTcpBadMatcher }

/-- Diff metadata with all three health-check keys changed. -/
def exDiffInfo : DiffInfo :=
  { hasChangeInterval := true, hasChangeHCProtocol := true, hasChangeTimeout := true,
    changedKeysHC := ["health_check.0.protocol"] }

/-- Change metadata with nothing changed. -/
def exNoChanges : TGChanges :=
  { tags := false, health_check := false, deregistration_delay := false, slow_start := false,
    proxy_protocol_v2 := false, stickiness := false, load_balancing_algorithm_type := false,
    lambda_multi_value_headers_enabled := false, isNew := false, tagsOld := [], tagsNew := [] }

/-- A remote target group matching `exState`. -/
def exTargetGroup : TargetGroup :=
  { TargetGroupArn := some exState.id, TargetGroupName := some "tf-tg",
    TargetType := some "instance", HealthCheckEnabled := some true,
    HealthCheckIntervalSeconds := some 30, HealthCheckPort := some "traffic-port",
    HealthCheckProtocol := some "TCP", HealthCheckTimeoutSeconds := some 10,
    HealthyThresholdCount := some 3, UnhealthyThresholdCount := some 3,
    HealthCheckPath := none, MatcherHttpCode := none, VpcId := some "vpc-1",
    Port := some 80, Protocol := some "TCP" }

/-- A remote oracle on which every call succeeds. -/
def exRemoteOk : Remote :=
  { CreateTargetGroup := fun _ => .ok [exTargetGroup],
    DescribeTargetGroups := fun _ => .ok [exTargetGroup],
    ModifyTargetGroup := fun _ => .ok (),
    ModifyTargetGroupAttributes := fun _ _ => .ok (),
    DescribeTargetGroupAttributes := fun _ => .ok [],
    Elbv2UpdateTags := fun _ _ _ => .ok (),
    Elbv2ListTags := fun _ => .ok [] }

/-- A retryable in-use delete error. -/
def exInUseErr : AwsErr :=
  { code := "ResourceInUse",
    message := "Target group tg is currently in use by a listener or a rule" }

/-- A describe error with the not-found code. -/
def exNotFoundErr : AwsErr :=
  { code := "TargetGroupNotFound", message := "Target group not found" }

/-- A describe error with a different code. -/
def exThrottleErr : AwsErr :=
  { code := "Throttling", message := "Rate exceeded" }

/-- A remote oracle whose describe call reports not-found. -/
def exRemoteNotFound : Remote :=
  { exRemoteOk with DescribeTargetGroups := fun _ => .error exNotFoundErr }

/-- A remote oracle whose describe call reports throttling. -/
def exRemoteThrottle : Remote :=
  { exRemoteOk with DescribeTargetGroups := fun _ => .error exThrottleErr }

/-- The request `buildCreateParams` produces for `exState` with the
identity unique-id function. -/
def exCreateParams : CreateTargetGroupInput :=
  { Name := "tf-tg", TargetType := "instance", Port := some 80, Protocol := some "TCP",
    VpcId := some "vpc-1", HealthCheckEnabled := some true,
    HealthCheckIntervalSeconds := some 30, HealthyThresholdCount := some 3,
    UnhealthyThresholdCount := some 3, HealthCheckTimeoutSeconds := none,
    HealthCheckPath := none, MatcherHttpCode := none,
    HealthCheckPort := some "traffic-port", HealthCheckProtocol := some "TCP" }

/-- The state `Read` produces from `exState` against `exRemoteOk`. -/
def exReadState : TGState :=
  { exState with
    arn := exState.id,
    arn_suffix := "targetgroup/tf-tg/abc123",
    health_check := some (HealthCheck.mk true 30 "" "traffic-port" "TCP" 10 3 "" 3) }

/-! ### Theorems -/

/-- C8: the `slow_start` validator returns no error if and only if the value
is 0 or lies between 30 and 900 inclusive; for every other integer it
returns exactly one validation error. -/
theorem validateSlowStart_spec (v : Int) (k : String) :
    (validateSlowStart v k = [] ↔ (v = 0 ∨ (30 ≤ v ∧ v ≤ 900))) ∧
    (¬(v = 0 ∨ (30 ≤ v ∧ v ≤ 900)) → (validateSlowStart v k).length = 1) := by
  unfold validateSlowStart
  by_cases hz : v = 0
  · simp [hz]
  · by_cases h30 : 30 ≤ v
    · by_cases h900 : v ≤ 900
      · simp [hz, h30, h900]
      · simp [hz, h30, h900]
    · simp [hz, h30]

/-- C8 witness: evaluating the theorem at the out-of-range value 10. -/
theorem validateSlowStart_spec_witness :
    ¬((10 : Int) = 0 ∨ (30 ≤ (10 : Int) ∧ (10 : Int) ≤ 900)) ∧
      (validateSlowStart 10 "slow_start").length = 1 :=
  ⟨by decide, (validateSlowStart_spec 10 "slow_start").2 (by decide)⟩

/-- Helper: `String.toList` inverts `String.mk`. -/
theorem toList_mk (l : List Char) : (String.mk l).toList = l := rfl

/-- C7: the health-check port validator accepts exactly `"traffic-port"` or
a decimal numeral (in the sense of `strconv.Atoi`) whose value lies between
1 and 65536 inclusive; every other input yields at least one validation
error.  The second conjunct states the acceptance condition declaratively
for plain digit strings. -/
theorem validateHealthCheckPort_spec (v k : String) :
    (validateAwsLbTargetGroupHealthCheckPort v k = [] ↔
      (v = "traffic-port" ∨
        ((goAtoi v).ok = true ∧ 1 ≤ (goAtoi v).val ∧ (goAtoi v).val ≤ 65536))) ∧
    (∀ ds : List Char, ds ≠ [] → allDigits ds = true →
      (validateAwsLbTargetGroupHealthCheckPort (String.mk ds) k = [] ↔
        (1 ≤ digitsVal ds ∧ digitsVal ds ≤ 65536))) := by
  have main : ∀ w : String,
      validateAwsLbTargetGroupHealthCheckPort w k = [] ↔
        (w = "traffic-port" ∨
          ((goAtoi w).ok = true ∧ 1 ≤ (goAtoi w).val ∧ (goAtoi w).val ≤ 65536)) := by
    intro w
    unfold validateAwsLbTargetGroupHealthCheckPort
    by_cases htp : w = "traffic-port"
    · simp [htp]
    · rcases hq : goAtoi w with ⟨val, ok⟩
      simp only [htp, if_false, hq]
      cases ok <;> by_cases h1 : val < 1 <;> by_cases h2 : val > 65536 <;>
        simp [htp, h1, h2]
      all_goals omega
  refine ⟨main v, ?_⟩
  intro ds hne hdig
  obtain ⟨c, cs, rfl⟩ : ∃ c cs, ds = c :: cs := by
    cases ds with
    | nil => exact absurd rfl hne
    | cons c cs => exact ⟨c, cs, rfl⟩
  have hcdig : c.isDigit = true := by
    simp only [allDigits, List.all_cons, Bool.and_eq_true] at hdig
    exact hdig.1
  have hcm : c ≠ '-' := by
    intro h; rw [h] at hcdig; exact absurd hcdig (by decide)
  have hcp : c ≠ '+' := by
    intro h; rw [h] at hcdig; exact absurd hcdig (by decide)
  have htp : String.mk (c :: cs) ≠ "traffic-port" := by
    intro h
    have hl : c :: cs = "traffic-port".toList := congrArg String.toList h
    rw [hl] at hdig
    exact absurd hdig (by decide)
  have h63 : ((2 : Int) ^ 63 : Int) = 9223372036854775808 := by norm_num
  have hnn : ¬((digitsVal (c :: cs) : Int) < -(2 ^ 63)) := by
    rw [h63]; omega
  have hga : goAtoi (String.mk (c :: cs)) =
      (if (digitsVal (c :: cs) : Int) > 2 ^ 63 - 1 then
        (⟨2 ^ 63 - 1, false⟩ : AtoiResult)
      else ⟨(digitsVal (c :: cs) : Int), true⟩) := by
    unfold goAtoi
    rw [toList_mk]
    simp [hcm, hcp, hdig, hnn]
    intro h
    exfalso
    omega
  rw [main (String.mk (c :: cs))]
  constructor
  · rintro (h | ⟨hok, hlo, hhi⟩)
    · exact absurd h htp
    · rw [hga] at hok hlo hhi
      by_cases hov : (digitsVal (c :: cs) : Int) > 2 ^ 63 - 1
      · rw [if_pos hov] at hok
        exact absurd hok (by decide)
      · rw [if_neg hov] at hlo hhi
        have hlo' : (1 : Int) ≤ (digitsVal (c :: cs) : Int) := hlo
        have hhi' : (digitsVal (c :: cs) : Int) ≤ 65536 := hhi
        constructor <;> omega
  · rintro ⟨hlo, hhi⟩
    right
    rw [hga]
    have hov : ¬((digitsVal (c :: cs) : Int) > 2 ^ 63 - 1) := by
      rw [h63]; omega
    rw [if_neg hov]
    refine ⟨rfl, ?_, ?_⟩
    · show (1 : Int) ≤ (digitsVal (c :: cs) : Int)
      omega
    · show (digitsVal (c :: cs) : Int) ≤ 65536
      omega

/-- C7 witness: evaluating the theorem at the inputs `"traffic-port"`,
`"80"` (accepted) and on digit string `"99999"` (rejected). -/
theorem validateHealthCheckPort_spec_witness :
    validateAwsLbTargetGroupHealthCheckPort "traffic-port" "port" = [] ∧
      (¬(1 ≤ digitsVal "99999".toList ∧ digitsVal "99999".toList ≤ 65536) ∧
        ¬(validateAwsLbTargetGroupHealthCheckPort (String.mk "99999".toList) "port" = [])) :=
  ⟨(validateHealthCheckPort_spec "traffic-port" "port").1.mpr (Or.inl rfl),
    by decide,
    fun h =>
      absurd (((validateHealthCheckPort_spec "x" "port").2 "99999".toList (by decide)
        (by decide)).mp h) (by decide)⟩

/-- C5: for protocols TCP, UDP, TCP_UDP and TLS the stickiness
`cookie_duration` diff-suppression hook always suppresses, and the
stickiness `type` hook suppresses exactly when the new value is `lb_cookie`
while stickiness is disabled; for every other protocol both hooks return
`false`. -/
theorem stickinessDiffSuppress_spec (k old new : String) (d : TGState) :
    ((d.protocol = ProtocolEnumTcp ∨ d.protocol = ProtocolEnumUdp ∨
        d.protocol = ProtocolEnumTcpUdp ∨ d.protocol = ProtocolEnumTls) →
      (stickinessCookieDurationDiffSuppress k old new d = true ∧
        (stickinessTypeDiffSuppress k old new d = true ↔
          (new = "lb_cookie" ∧ getStickinessEnabled d = false)))) ∧
    (¬(d.protocol = ProtocolEnumTcp ∨ d.protocol = ProtocolEnumUdp ∨
        d.protocol = ProtocolEnumTcpUdp ∨ d.protocol = ProtocolEnumTls) →
      (stickinessCookieDurationDiffSuppress k old new d = false ∧
        stickinessTypeDiffSuppress k old new d = false)) := by
  unfold stickinessCookieDurationDiffSuppress stickinessTypeDiffSuppress
  constructor
  · intro hp
    have hcond : (d.protocol == ProtocolEnumTcp || d.protocol == ProtocolEnumUdp ||
        d.protocol == ProtocolEnumTcpUdp || d.protocol == ProtocolEnumTls) = true := by
      rcases hp with h | h | h | h <;> simp [h]
    rw [if_pos hcond, if_pos hcond]
    refine ⟨rfl, ?_⟩
    by_cases hn : new = "lb_cookie" <;> by_cases he : getStickinessEnabled d = false <;>
      simp [hn, he]
  · intro hp
    have hcond : (d.protocol == ProtocolEnumTcp || d.protocol == ProtocolEnumUdp ||
        d.protocol == ProtocolEnumTcpUdp || d.protocol == ProtocolEnumTls) = false := by
      push_neg at hp
      simp [hp.1, hp.2.1, hp.2.2.1, hp.2.2.2]
    rw [if_neg (by simp [hcond]), if_neg (by simp [hcond])]
    exact ⟨rfl, rfl⟩

/-- C5 witness: evaluating the theorem at a TLS state with disabled
stickiness and at an HTTP state. -/
theorem stickinessDiffSuppress_spec_witness :
    (stickinessCookieDurationDiffSuppress "k" "a" "lb_cookie"
        { exState with protocol := "TLS" } = true ∧
      stickinessTypeDiffSuppress "k" "a" "lb_cookie"
        { exState with protocol := "TLS" } = true) ∧
    stickinessTypeDiffSuppress "k" "a" "lb_cookie"
        { exState with protocol := "HTTP" } = false := by
  have h1 := (stickinessDiffSuppress_spec "k" "a" "lb_cookie"
    { exState with protocol := "TLS" }).1 (by right; right; right; rfl)
  have h2 := (stickinessDiffSuppress_spec "k" "a" "lb_cookie"
    { exState with protocol := "HTTP" }).2 (by decide)
  exact ⟨⟨h1.1, h1.2.mpr ⟨rfl, by decide⟩⟩, h2.2⟩

/-- C2: with a health-check block of protocol TCP, the plan-time diff
customization (which performs no remote call) returns one of the four TCP
health-check validation errors precisely when the matcher is non-empty, or
the path is non-empty, or the timeout is non-zero on first creation (empty
id), or the two thresholds differ. -/
theorem customizeDiffTcpHealthCheck_spec (d : TGState) (di : DiffInfo) (hc : HealthCheck)
    (hhc : d.health_check = some hc) (hproto : hc.protocol = ProtocolEnumTcp) :
    (∃ e, resourceAwsLbTargetGroupCustomizeDiff d di = .error e ∧
        isTcpHcValidationErr e = true) ↔
      (hc.matcher ≠ "" ∨ hc.path ≠ "" ∨ (hc.timeout ≠ 0 ∧ d.id = "") ∨
        hc.healthy_threshold ≠ hc.unhealthy_threshold) := by
  have hchar : (∃ e, tcpHealthCheckPlanError d = some e ∧ isTcpHcValidationErr e = true) ↔
      (hc.matcher ≠ "" ∨ hc.path ≠ "" ∨ (hc.timeout ≠ 0 ∧ d.id = "") ∨
        hc.healthy_threshold ≠ hc.unhealthy_threshold) := by
    simp only [tcpHealthCheckPlanError, hhc, hproto]
    by_cases hm : hc.matcher = ""
    case neg => simp [hm, isTcpHcValidationErr]
    by_cases hp : hc.path = ""
    case neg => simp [hm, hp, isTcpHcValidationErr]
    by_cases hto : hc.timeout ≠ 0 ∧ d.id = ""
    case pos => simp [hm, hp, hto.1, hto.2, isTcpHcValidationErr]
    have hcond : (hc.timeout != 0 && d.id == "") = false := by
      rcases not_and_or.mp hto with h | h
      · simp only [ne_eq, not_not] at h
        simp [h]
      · simp [h]
    by_cases hth : hc.healthy_threshold = hc.unhealthy_threshold
    case neg => simp [hm, hp, hcond, hth, hto, isTcpHcValidationErr]
    simp [hm, hp, hcond, hth, hto, isTcpHcValidationErr]
  constructor
  · rintro ⟨e, he, hv⟩
    apply hchar.mp
    refine ⟨e, ?_, hv⟩
    unfold resourceAwsLbTargetGroupCustomizeDiff at he
    cases htc : tcpHealthCheckPlanError d with
    | some e2 =>
      simp only [htc] at he
      injection he with h
      exact congrArg some h
    | none =>
      exfalso
      simp only [htc] at he
      cases hhp : httpTcpPlanError d with
      | some e2 =>
        simp only [hhp] at he
        injection he with h
        have he2 : e2 = .httpTcpHealthCheck := by
          unfold httpTcpPlanError at hhp
          split at hhp
          · simp only [hhc] at hhp
            split at hhp
            · injection hhp with h2
              exact h2.symm
            · cases hhp
          · cases hhp
        rw [← h, he2] at hv
        cases hv
      | none =>
        simp only [hhp] at he
        split at he
        · cases he
        · split at he <;> cases he
  · intro hconds
    obtain ⟨e, hte, hv⟩ := hchar.mpr hconds
    refine ⟨e, ?_, hv⟩
    unfold resourceAwsLbTargetGroupCustomizeDiff
    rw [hte]

/-- C2 witness: evaluating the theorem at a TCP target group state whose
health check carries a non-empty matcher. -/
theorem customizeDiffTcpHealthCheck_spec_witness :
    ∃ e, resourceAwsLbTargetGroupCustomizeDiff exStateBadMatcher exDiffInfo = .error e ∧
      isTcpHcValidationErr e = true :=
  (customizeDiffTcpHealthCheck_spec exStateBadMatcher exDiffInfo exHcTcpBadMatcher
    rfl rfl).mpr (Or.inl (by decide))

/-- C4: when the diff customization succeeds, on an existing resource
(non-empty id) of protocol TCP a change to health-check interval or timeout
marks that key `ForceNew`, and a change to health-check protocol marks it
`ForceNew` exactly when `GetChangedKeysPrefix("health_check.0")` is
non-empty; on a new resource or for a non-TCP protocol no key is marked. -/
theorem customizeDiffForceNew_spec (d : TGState) (di : DiffInfo) (fk : List String)
    (hok : resourceAwsLbTargetGroupCustomizeDiff d di = .ok fk) :
    ((d.id ≠ "" ∧ d.protocol = ProtocolEnumTcp) →
      (("health_check.0.interval" ∈ fk ↔ di.hasChangeInterval = true) ∧
        ("health_check.0.timeout" ∈ fk ↔ di.hasChangeTimeout = true) ∧
        ("health_check.0.protocol" ∈ fk ↔
          (di.hasChangeHCProtocol = true ∧ di.changedKeysHC ≠ [])))) ∧
    ((d.id = "" ∨ d.protocol ≠ ProtocolEnumTcp) → fk = []) := by
  unfold resourceAwsLbTargetGroupCustomizeDiff at hok
  cases htc : tcpHealthCheckPlanError d with
  | some e =>
    simp only [htc] at hok
    cases hok
  | none =>
  simp only [htc] at hok
  cases hhp : httpTcpPlanError d with
  | some e =>
    simp only [hhp] at hok
    cases hok
  | none =>
  simp only [hhp] at hok
  constructor
  · rintro ⟨hid, hproto⟩
    rw [if_neg (by simpa using hid), hproto, if_pos (by simp)] at hok
    injection hok with h
    subst h
    refine ⟨?_, ?_, ?_⟩
    · unfold tcpForceNewKeys
      cases hi : di.hasChangeInterval <;>
        cases hp2 : di.hasChangeHCProtocol && !di.changedKeysHC.isEmpty <;>
        cases ht : di.hasChangeTimeout <;> decide
    · unfold tcpForceNewKeys
      cases hi : di.hasChangeInterval <;>
        cases hp2 : di.hasChangeHCProtocol && !di.changedKeysHC.isEmpty <;>
        cases ht : di.hasChangeTimeout <;> decide
    · have hmem : "health_check.0.protocol" ∈ tcpForceNewKeys di ↔
          (di.hasChangeHCProtocol && !di.changedKeysHC.isEmpty) = true := by
        unfold tcpForceNewKeys
        cases hi : di.hasChangeInterval <;>
          cases hp2 : di.hasChangeHCProtocol && !di.changedKeysHC.isEmpty <;>
          cases ht : di.hasChangeTimeout <;> decide
      rw [hmem]
      cases hck : di.changedKeysHC <;> simp [hck]
  · rintro (hid | hproto)
    · rw [if_pos (by simpa using hid)] at hok
      injection hok with h
      exact h.symm
    · by_cases hid : d.id = ""
      · rw [if_pos (by simpa using hid)] at hok
        injection hok with h
        exact h.symm
      · rw [if_neg (by simpa using hid), if_neg (by simpa using hproto)] at hok
        injection hok with h
        exact h.symm

/-- C4 witness: evaluating the theorem on an existing TCP resource with all
three health-check keys changed, and on a new resource. -/
theorem customizeDiffForceNew_spec_witness :
    "health_check.0.interval" ∈
        ["health_check.0.interval", "health_check.0.protocol", "health_check.0.timeout"] ↔
      exDiffInfo.hasChangeInterval = true := by
  have h := (customizeDiffForceNew_spec { exState with health_check := none } exDiffInfo
    ["health_check.0.interval", "health_check.0.protocol", "health_check.0.timeout"]
    rfl).1 ⟨by decide, rfl⟩
  exact h.1

/-- C3: for a non-lambda target type, `Create` returns a validation error
before issuing the remote `CreateTargetGroup` call exactly when `port`,
`protocol` or `vpc_id` is unset; otherwise (all three set, or target type
lambda) no such error occurs and `Create` proceeds to the remote stage with
the built request. -/
theorem createValidation_spec (d : TGState) (ch : TGChanges) (r : Remote)
    (uniq : String → String) :
    ((∃ e, buildCreateParams d uniq = .error e) ↔
      (d.target_type ≠ TargetTypeEnumLambda ∧
        (d.port = 0 ∨ d.protocol = "" ∨ d.vpc_id = ""))) ∧
    (∀ p, buildCreateParams d uniq = .ok p →
      resourceAwsLbTargetGroupCreate d ch r uniq = createRemoteStage d ch r p) := by
  constructor
  · unfold buildCreateParams
    by_cases hl : d.target_type = TargetTypeEnumLambda
    · simp [hl]
    · by_cases hport : d.port = 0
      · simp [hl, hport]
      · by_cases hproto : d.protocol = ""
        · simp [hl, hport, hproto]
        · by_cases hvpc : d.vpc_id = ""
          · simp [hl, hport, hproto, hvpc]
          · simp [hl, hport, hproto, hvpc]
  · intro p hp
    unfold resourceAwsLbTargetGroupCreate
    rw [hp]

/-- C3 witness: evaluating the theorem at the fully-populated state
`exState` (no validation error, remote stage reached) and checking the
validation triggers on a state with unset `vpc_id`. -/
theorem createValidation_spec_witness :
    (buildCreateParams exState (fun s => s) = .ok exCreateParams ∧
      resourceAwsLbTargetGroupCreate exState exNoChanges exRemoteOk (fun s => s) =
        createRemoteStage exState exNoChanges exRemoteOk exCreateParams) ∧
    (∃ e, buildCreateParams { exState with vpc_id := "" } (fun s => s) = .error e) :=
  ⟨⟨rfl, (createValidation_spec exState exNoChanges exRemoteOk (fun s => s)).2
      exCreateParams rfl⟩,
    (createValidation_spec { exState with vpc_id := "" } exNoChanges exRemoteOk
      (fun s => s)).1.mpr ⟨by decide, Or.inr (Or.inr rfl)⟩⟩

/-- C6: every successful `Create` went through the remote create call and
finishes as a successful `Update` of the state whose id is the returned ARN,
and every successful `Update` finishes as a successful `Read` — so local
state after `Create` or `Update` is the result of re-describing the remote
resource. -/
theorem readAfterWrite_spec (d : TGState) (ch : TGChanges) (r : Remote)
    (uniq : String → String) :
    (∀ s, resourceAwsLbTargetGroupCreate d ch r uniq = .ok s →
      ∃ p tg rest, buildCreateParams d uniq = .ok p ∧
        r.CreateTargetGroup p = .ok (tg :: rest) ∧
        resourceAwsLbTargetGroupUpdate { d with id := tg.TargetGroupArn.getD "" } ch r =
          .ok s) ∧
    (∀ s, resourceAwsLbTargetGroupUpdate d ch r = .ok s →
      resourceAwsLbTargetGroupRead d r = .ok s) := by
  constructor
  · intro s hs
    unfold resourceAwsLbTargetGroupCreate at hs
    cases hb : buildCreateParams d uniq with
    | error e =>
      simp only [hb] at hs
      cases hs
    | ok p =>
      simp only [hb] at hs
      unfold createRemoteStage at hs
      cases hc : r.CreateTargetGroup p with
      | error e =>
        simp only [hc] at hs
        cases hs
      | ok tgs =>
        cases tgs with
        | nil =>
          simp only [hc] at hs
          cases hs
        | cons tg rest =>
          simp only [hc] at hs
          exact ⟨p, tg, rest, rfl, hc, hs⟩
  · intro s hs
    unfold resourceAwsLbTargetGroupUpdate at hs
    cases h1 : updateTagsStep d ch r with
    | error e =>
      simp only [h1] at hs
      cases hs
    | ok u1 =>
      simp only [h1] at hs
      cases h2 : updateHealthCheckStep d ch r with
      | error e =>
        simp only [h2] at hs
        cases hs
      | ok u2 =>
        simp only [h2] at hs
        cases h3 : updateAttrsStep d ch r with
        | error e =>
          simp only [h3] at hs
          cases hs
        | ok u3 =>
          simp only [h3] at hs
          exact hs

/-- C6 witness: a successful `Update` of `exState` against `exRemoteOk`
yields exactly the re-described state, as does the tail `Read`. -/
theorem readAfterWrite_spec_witness :
    resourceAwsLbTargetGroupUpdate exState exNoChanges exRemoteOk = .ok exReadState ∧
      resourceAwsLbTargetGroupRead exState exRemoteOk = .ok exReadState :=
  ⟨rfl, (readAfterWrite_spec exState exNoChanges exRemoteOk (fun s => s)).2 exReadState rfl⟩

/-- C9: when the describe call of `Read` fails with a `TargetGroupNotFound`
error the id is cleared (the resource is dropped from local state) and no
error is returned; any other describe failure is returned as an error, the
local state staying untouched. -/
theorem readNotFound_spec (d : TGState) (r : Remote) :
    (∀ e, r.DescribeTargetGroups d.id = .error e →
      isAWSErr (some e) ErrCodeTargetGroupNotFoundException "" = true →
      resourceAwsLbTargetGroupRead d r = .ok { d with id := "" }) ∧
    (∀ e, r.DescribeTargetGroups d.id = .error e →
      isAWSErr (some e) ErrCodeTargetGroupNotFoundException "" = false →
      resourceAwsLbTargetGroupRead d r = .error (.retrieving e)) := by
  constructor <;> intro e he hcl <;> unfold resourceAwsLbTargetGroupRead <;> rw [he] <;>
    simp [hcl]

/-- C9 witness: evaluating the theorem against a not-found remote and a
throttling remote. -/
theorem readNotFound_spec_witness :
    resourceAwsLbTargetGroupRead exState exRemoteNotFound = .ok { exState with id := "" } ∧
      resourceAwsLbTargetGroupRead exState exRemoteThrottle =
        .error (.retrieving exThrottleErr) :=
  ⟨(readNotFound_spec exState exRemoteNotFound).1 exNotFoundErr rfl (by decide),
    (readNotFound_spec exState exRemoteThrottle).2 exThrottleErr rfl (by decide)⟩

/-- Helper: the executable substring test agrees with the declarative
decomposition. -/
theorem hasSub_iff (p : List Char) : ∀ l, hasSub p l = true ↔ ∃ u v, l = u ++ p ++ v := by
  intro l
  induction l with
  | nil =>
    simp only [hasSub, List.isPrefixOf_iff_prefix, List.prefix_nil]
    constructor
    · rintro rfl
      exact ⟨[], [], rfl⟩
    · rintro ⟨u, v, huv⟩
      rw [eq_comm, List.append_eq_nil] at huv
      rw [List.append_eq_nil] at huv
      exact huv.1.2
  | cons c t ih =>
    simp only [hasSub, Bool.or_eq_true, List.isPrefixOf_iff_prefix]
    constructor
    · rintro (⟨t2, ht2⟩ | h)
      · exact ⟨[], t2, by simp [ht2]⟩
      · obtain ⟨u, v, huv⟩ := ih.mp h
        exact ⟨c :: u, v, by simp [huv]⟩
    · rintro ⟨u, v, huv⟩
      cases u with
      | nil =>
        left
        exact ⟨v, by simpa using huv.symm⟩
      | cons u0 u2 =>
        right
        apply ih.mpr
        refine ⟨u2, v, ?_⟩
        have := huv
        simp only [List.cons_append] at this
        exact (List.cons.injEq _ _ _ _).mp this |>.2

/-- Step equation of the retry loop. -/
theorem runRetry_succ (res : Nat → Option AwsErr) (fuel i : Nat) :
    runRetry res (fuel + 1) i =
      (match deleteRetryFunc (res i) with
       | .retryableE _ => runRetry res fuel (i + 1)
       | .nonRetryable e => .failed e
       | .done => .ok) := rfl

/-- The retry loop succeeds exactly when some attempt within the budget
returns nil after a streak of retryable errors. -/
theorem runRetry_eq_ok (res : Nat → Option AwsErr) :
    ∀ fuel i, runRetry res fuel i = .ok ↔
      ∃ k, k < fuel ∧ res (i + k) = none ∧ ∀ j, j < k → deleteRetryableAt res (i + j) := by
  intro fuel
  induction fuel with
  | zero =>
    intro i
    constructor
    · intro h
      exact absurd h (by simp [runRetry])
    · rintro ⟨k, hk, _⟩
      omega
  | succ fuel ih =>
    intro i
    rw [runRetry_succ]
    cases hres : res i with
    | none =>
      have hdf : deleteRetryFunc none = .done := by
        unfold deleteRetryFunc isAWSErr
        simp
      rw [hdf]
      constructor
      · intro _
        exact ⟨0, by omega, by simpa using hres, by omega⟩
      · intro _
        rfl
    | some e =>
      by_cases hr : isAWSErr (some e) "ResourceInUse" tgInUseMsg = true
      · have hdf : deleteRetryFunc (some e) = .retryableE (some e) := by
          unfold deleteRetryFunc
          rw [if_pos hr]
        rw [hdf]
        show runRetry res fuel (i + 1) = .ok ↔ _
        rw [ih (i + 1)]
        constructor
        · rintro ⟨k, hk, hnone, hall⟩
          refine ⟨k + 1, by omega, ?_, ?_⟩
          · have heq : i + (k + 1) = i + 1 + k := by omega
            rw [heq]
            exact hnone
          · intro j hj
            cases j with
            | zero => exact ⟨e, by simpa using hres, hr⟩
            | succ j2 =>
              have heq : i + (j2 + 1) = i + 1 + j2 := by omega
              rw [heq]
              exact hall j2 (by omega)
        · rintro ⟨k, hk, hnone, hall⟩
          cases k with
          | zero =>
            exfalso
            rw [Nat.add_zero, hres] at hnone
            cases hnone
          | succ k2 =>
            refine ⟨k2, by omega, ?_, ?_⟩
            · have heq : i + 1 + k2 = i + (k2 + 1) := by omega
              rw [heq]
              exact hnone
            · intro j hj
              have heq : i + 1 + j = i + (j + 1) := by omega
              rw [heq]
              exact hall (j + 1) (by omega)
      · have hdf : deleteRetryFunc (some e) = .nonRetryable e := by
          unfold deleteRetryFunc
          rw [if_neg (by simpa using hr)]
        rw [hdf]
        show RetryOut.failed e = .ok ↔ _
        constructor
        · intro h
          cases h
        · rintro ⟨k, hk, hnone, hall⟩
          exfalso
          cases k with
          | zero =>
            rw [Nat.add_zero, hres] at hnone
            cases hnone
          | succ k2 =>
            obtain ⟨e2, he2, hr2⟩ := hall 0 (by omega)
            rw [Nat.add_zero, hres] at he2
            injection he2 with he2
            rw [← he2] at hr2
            exact hr hr2

/-- The retry loop fails exactly when some attempt within the budget returns
a non-retryable error after a streak of retryable errors. -/
theorem runRetry_eq_failed (res : Nat → Option AwsErr) :
    ∀ fuel i e, runRetry res fuel i = .failed e ↔
      ∃ k, k < fuel ∧ res (i + k) = some e ∧
        isAWSErr (some e) "ResourceInUse" tgInUseMsg = false ∧
        ∀ j, j < k → deleteRetryableAt res (i + j) := by
  intro fuel
  induction fuel with
  | zero =>
    intro i e
    constructor
    · intro h
      exact absurd h (by simp [runRetry])
    · rintro ⟨k, hk, _⟩
      omega
  | succ fuel ih =>
    intro i e
    rw [runRetry_succ]
    cases hres : res i with
    | none =>
      have hdf : deleteRetryFunc none = .done := by
        unfold deleteRetryFunc isAWSErr
        simp
      rw [hdf]
      show RetryOut.ok = .failed e ↔ _
      constructor
      · intro h
        cases h
      · rintro ⟨k, hk, hsome, _, hall⟩
        exfalso
        cases k with
        | zero =>
          rw [Nat.add_zero, hres] at hsome
          cases hsome
        | succ k2 =>
          obtain ⟨e2, he2, _⟩ := hall 0 (by omega)
          rw [Nat.add_zero, hres] at he2
          cases he2
    | some e2 =>
      by_cases hr : isAWSErr (some e2) "ResourceInUse" tgInUseMsg = true
      · have hdf : deleteRetryFunc (some e2) = .retryableE (some e2) := by
          unfold deleteRetryFunc
          rw [if_pos hr]
        rw [hdf]
        show runRetry res fuel (i + 1) = .failed e ↔ _
        rw [ih (i + 1) e]
        constructor
        · rintro ⟨k, hk, hsome, hnr, hall⟩
          refine ⟨k + 1, by omega, ?_, hnr, ?_⟩
          · have heq : i + (k + 1) = i + 1 + k := by omega
            rw [heq]
            exact hsome
          · intro j hj
            cases j with
            | zero => exact ⟨e2, by simpa using hres, hr⟩
            | succ j2 =>
              have heq : i + (j2 + 1) = i + 1 + j2 := by omega
              rw [heq]
              exact hall j2 (by omega)
        · rintro ⟨k, hk, hsome, hnr, hall⟩
          cases k with
          | zero =>
            exfalso
            rw [Nat.add_zero, hres] at hsome
            injection hsome with hsome
            rw [hsome] at hr
            rw [hr] at hnr
            cases hnr
          | succ k2 =>
            refine ⟨k2, by omega, ?_, hnr, ?_⟩
            · have heq : i + 1 + k2 = i + (k2 + 1) := by omega
              rw [heq]
              exact hsome
            · intro j hj
              have heq : i + 1 + j = i + (j + 1) := by omega
              rw [heq]
              exact hall (j + 1) (by omega)
      · have hdf : deleteRetryFunc (some e2) = .nonRetryable e2 := by
          unfold deleteRetryFunc
          rw [if_neg (by simpa using hr)]
        rw [hdf]
        show RetryOut.failed e2 = .failed e ↔ _
        constructor
        · intro h
          injection h with h
          subst h
          exact ⟨0, by omega, by simpa using hres, by simpa using hr, by omega⟩
        · rintro ⟨k, hk, hsome, hnr, hall⟩
          cases k with
          | zero =>
            rw [Nat.add_zero, hres] at hsome
            injection hsome with hsome
            rw [hsome]
          | succ k2 =>
            exfalso
            obtain ⟨e3, he3, hr3⟩ := hall 0 (by omega)
            rw [Nat.add_zero, hres] at he3
            injection he3 with he3
            rw [← he3] at hr3
            exact hr hr3

/-- The retry loop times out exactly when the whole budget is consumed by
retryable errors; the recorded attempt count is the budget. -/
theorem runRetry_eq_timedOut (res : Nat → Option AwsErr) :
    ∀ fuel i n, runRetry res fuel i = .timedOut n ↔
      (n = i + fuel ∧ ∀ j, j < fuel → deleteRetryableAt res (i + j)) := by
  intro fuel
  induction fuel with
  | zero =>
    intro i n
    show RetryOut.timedOut i = .timedOut n ↔ _
    constructor
    · intro h
      injection h with h
      exact ⟨by omega, by omega⟩
    · rintro ⟨h, _⟩
      rw [h, Nat.add_zero]
  | succ fuel ih =>
    intro i n
    rw [runRetry_succ]
    cases hres : res i with
    | none =>
      have hdf : deleteRetryFunc none = .done := by
        unfold deleteRetryFunc isAWSErr
        simp
      rw [hdf]
      show RetryOut.ok = .timedOut n ↔ _
      constructor
      · intro h
        cases h
      · rintro ⟨_, hall⟩
        exfalso
        obtain ⟨e2, he2, _⟩ := hall 0 (by omega)
        rw [Nat.add_zero, hres] at he2
        cases he2
    | some e2 =>
      by_cases hr : isAWSErr (some e2) "ResourceInUse" tgInUseMsg = true
      · have hdf : deleteRetryFunc (some e2) = .retryableE (some e2) := by
          unfold deleteRetryFunc
          rw [if_pos hr]
        rw [hdf]
        show runRetry res fuel (i + 1) = .timedOut n ↔ _
        rw [ih (i + 1) n]
        constructor
        · rintro ⟨hn, hall⟩
          refine ⟨by omega, ?_⟩
          intro j hj
          cases j with
          | zero => exact ⟨e2, by simpa using hres, hr⟩
          | succ j2 =>
            have heq : i + (j2 + 1) = i + 1 + j2 := by omega
            rw [heq]
            exact hall j2 (by omega)
        · rintro ⟨hn, hall⟩
          refine ⟨by omega, ?_⟩
          intro j hj
          have heq : i + 1 + j = i + (j + 1) := by omega
          rw [heq]
          exact hall (j + 1) (by omega)
      · have hdf : deleteRetryFunc (some e2) = .nonRetryable e2 := by
          unfold deleteRetryFunc
          rw [if_neg (by simpa using hr)]
        rw [hdf]
        show RetryOut.failed e2 = .timedOut n ↔ _
        constructor
        · intro h
          cases h
        · rintro ⟨_, hall⟩
          exfalso
          obtain ⟨e3, he3, hr3⟩ := hall 0 (by omega)
          rw [Nat.add_zero, hres] at he3
          injection he3 with he3
          rw [← he3] at hr3
          exact hr hr3

/-- C1: `Delete` wraps `DeleteTargetGroup` in a bounded retry loop (the
2-minute wall-clock bound modelled by the attempt budget `fuel`),
classifying exactly `ResourceInUse` errors whose message contains the
listener-in-use text as retryable and every other error as non-retryable;
when the loop times out, one final unconditional attempt is made, and
`Delete` returns an error precisely when a non-retryable error ended the
loop or that final attempt failed. -/
theorem deleteRetry_spec (fuel : Nat) (res : Nat → Option AwsErr) :
    (∀ e, deleteRetryFunc (some e) = .retryableE (some e) ↔
      (e.code = "ResourceInUse" ∧
        ∃ u v, e.message.toList = u ++ tgInUseMsg.toList ++ v)) ∧
    (resourceAwsLbTargetGroupDelete fuel res = none ↔
      ((∃ k, k < fuel ∧ res k = none ∧ ∀ j, j < k → deleteRetryableAt res j) ∨
        ((∀ j, j < fuel → deleteRetryableAt res j) ∧ res fuel = none))) ∧
    (∀ e, resourceAwsLbTargetGroupDelete fuel res = some (.deleting e) ↔
      ((∃ k, k < fuel ∧ res k = some e ∧
          isAWSErr (some e) "ResourceInUse" tgInUseMsg = false ∧
          ∀ j, j < k → deleteRetryableAt res j) ∨
        ((∀ j, j < fuel → deleteRetryableAt res j) ∧ res fuel = some e))) := by
  refine ⟨?_, ?_, ?_⟩
  · intro e
    unfold deleteRetryFunc
    by_cases hr : isAWSErr (some e) "ResourceInUse" tgInUseMsg = true
    · rw [if_pos hr]
      constructor
      · intro _
        unfold isAWSErr strContains at hr
        simp only [Bool.and_eq_true, beq_iff_eq] at hr
        exact ⟨hr.1, (hasSub_iff _ _).mp hr.2⟩
      · intro _
        rfl
    · rw [if_neg hr]
      constructor
      · intro h
        cases h
      · rintro ⟨hcode, hsub⟩
        exfalso
        apply hr
        unfold isAWSErr strContains
        simp only [Bool.and_eq_true, beq_iff_eq]
        exact ⟨hcode, (hasSub_iff _ _).mpr hsub⟩
  · unfold resourceAwsLbTargetGroupDelete
    split
    next hrr =>
      obtain ⟨k, hk, hnone, hall⟩ := (runRetry_eq_ok res fuel 0).mp hrr
      constructor
      · intro _
        exact Or.inl ⟨k, hk, by simpa using hnone, fun j hj => by simpa using hall j hj⟩
      · intro _
        rfl
    next e hrr =>
      constructor
      · intro h
        cases h
      · rintro (⟨k, hk, hnone, hall⟩ | ⟨hall, hnone⟩)
        · have hok : runRetry res fuel 0 = .ok :=
            (runRetry_eq_ok res fuel 0).mpr
              ⟨k, hk, by simpa using hnone, fun j hj => by simpa using hall j hj⟩
          rw [hrr] at hok
          cases hok
        · have hto : runRetry res fuel 0 = .timedOut (0 + fuel) :=
            (runRetry_eq_timedOut res fuel 0 _).mpr
              ⟨rfl, fun j hj => by simpa using hall j hj⟩
          rw [hrr] at hto
          cases hto
    next n hrr =>
      obtain ⟨hn, hall0⟩ := (runRetry_eq_timedOut res fuel 0 n).mp hrr
      have hn2 : n = fuel := by omega
      rw [hn2]
      cases hf : res fuel with
      | none =>
        constructor
        · intro _
          exact Or.inr ⟨fun j hj => by simpa using hall0 j hj, rfl⟩
        · intro _
          rfl
      | some e =>
        constructor
        · intro h
          cases h
        · rintro (⟨k, hk, hnone, hall⟩ | ⟨hall, hnone⟩)
          · have hok : runRetry res fuel 0 = .ok :=
              (runRetry_eq_ok res fuel 0).mpr
                ⟨k, hk, by simpa using hnone, fun j hj => by simpa using hall j hj⟩
            rw [hrr] at hok
            cases hok
          · cases hnone
  · intro e
    unfold resourceAwsLbTargetGroupDelete
    split
    next hrr =>
      obtain ⟨k, hk, hnone, hall⟩ := (runRetry_eq_ok res fuel 0).mp hrr
      constructor
      · intro h
        cases h
      · rintro (⟨k2, hk2, hsome, hnr, hall2⟩ | ⟨hall2, hsome⟩)
        · have hfl : runRetry res fuel 0 = .failed e :=
            (runRetry_eq_failed res fuel 0 e).mpr
              ⟨k2, hk2, by simpa using hsome, hnr, fun j hj => by simpa using hall2 j hj⟩
          rw [hrr] at hfl
          cases hfl
        · have hto : runRetry res fuel 0 = .timedOut (0 + fuel) :=
            (runRetry_eq_timedOut res fuel 0 _).mpr
              ⟨rfl, fun j hj => by simpa using hall2 j hj⟩
          rw [hrr] at hto
          cases hto
    next e2 hrr =>
      obtain ⟨k, hk, hsome, hnr, hall⟩ := (runRetry_eq_failed res fuel 0 e2).mp hrr
      constructor
      · intro h
        injection h with h
        injection h with h
        subst h
        exact Or.inl ⟨k, hk, by simpa using hsome, hnr,
          fun j hj => by simpa using hall j hj⟩
      · rintro (⟨k2, hk2, hsome2, hnr2, hall2⟩ | ⟨hall2, hsome2⟩)
        · have hfl : runRetry res fuel 0 = .failed e :=
            (runRetry_eq_failed res fuel 0 e).mpr
              ⟨k2, hk2, by simpa using hsome2, hnr2, fun j hj => by simpa using hall2 j hj⟩
          rw [hrr] at hfl
          injection hfl with hfl
          rw [hfl]
        · have hto : runRetry res fuel 0 = .timedOut (0 + fuel) :=
            (runRetry_eq_timedOut res fuel 0 _).mpr
              ⟨rfl, fun j hj => by simpa using hall2 j hj⟩
          rw [hrr] at hto
          cases hto
    next n hrr =>
      obtain ⟨hn, hall0⟩ := (runRetry_eq_timedOut res fuel 0 n).mp hrr
      have hn2 : n = fuel := by omega
      rw [hn2]
      cases hf : res fuel with
      | none =>
        constructor
        · intro h
          cases h
        · rintro (⟨k2, hk2, hsome2, hnr2, hall2⟩ | ⟨hall2, hsome2⟩)
          · have hfl : runRetry res fuel 0 = .failed e :=
              (runRetry_eq_failed res fuel 0 e).mpr
                ⟨k2, hk2, by simpa using hsome2, hnr2,
                  fun j hj => by simpa using hall2 j hj⟩
            rw [hrr] at hfl
            cases hfl
          · cases hsome2
      | some e2 =>
        constructor
        · intro h
          injection h with h
          injection h with h
          subst h
          exact Or.inr ⟨fun j hj => by simpa using hall0 j hj, rfl⟩
        · rintro (⟨k2, hk2, hsome2, hnr2, hall2⟩ | ⟨hall2, hsome2⟩)
          · have hfl : runRetry res fuel 0 = .failed e :=
              (runRetry_eq_failed res fuel 0 e).mpr
                ⟨k2, hk2, by simpa using hsome2, hnr2,
                  fun j hj => by simpa using hall2 j hj⟩
            rw [hrr] at hfl
            cases hfl
          · injection hsome2 with hsome2
            rw [hsome2]

/-- C1 witness: a budget of two attempts exhausted by retryable in-use
errors followed by a failing final attempt makes `Delete` return that
error wrapped. -/
theorem deleteRetry_spec_witness :
    resourceAwsLbTargetGroupDelete 2 (fun _ => some exInUseErr) =
      some (.deleting exInUseErr) :=
  ((deleteRetry_spec 2 (fun _ => some exInUseErr)).2.2 exInUseErr).mpr
    (Or.inr ⟨fun _ _ => ⟨exInUseErr, rfl, by decide⟩, rfl⟩)

/-- Helper: without an occurrence, `afterLast` finds nothing. -/
theorem afterLast_eq_none (p : List Char) :
    ∀ l, hasSub p l = false → afterLast p l = none := by
  intro l
  induction l with
  | nil =>
    intro _
    rfl
  | cons c t ih =>
    intro h
    rw [hasSub, Bool.or_eq_false_iff] at h
    unfold afterLast
    rw [ih h.2]
    simp [h.1]

/-- Helper: a later occurrence wins in `afterLast`. -/
theorem afterLast_cons_of_some (p : List Char) (x : Char) (l r : List Char)
    (h : afterLast p l = some r) : afterLast p (x :: l) = some r := by
  unfold afterLast
  rw [h]

/-- Helper: when the tail after the marked occurrence contains no further
occurrence, `afterLast` returns exactly that tail. -/
theorem afterLast_append (q : Char) (qs c : List Char)
    (hno : hasSub (q :: qs) (qs ++ c) = false) :
    ∀ d, afterLast (q :: qs) (d ++ (q :: qs) ++ c) = some c := by
  intro d
  induction d with
  | nil =>
    show afterLast (q :: qs) (q :: (qs ++ c)) = some c
    unfold afterLast
    rw [afterLast_eq_none (q :: qs) (qs ++ c) hno]
    have hpre : (q :: qs).isPrefixOf (q :: (qs ++ c)) = true := by
      rw [ List.isPrefixOf_iff_prefix]
      exact ⟨c, by simp⟩
    rw [if_pos hpre]
    rw [show q :: (qs ++ c) = (q :: qs) ++ c from rfl, List.drop_left]
  | cons x d2 ih =>
    exact afterLast_cons_of_some (q :: qs) x (d2 ++ (q :: qs) ++ c) c ih

/-- Helper: a successful `afterLast` yields a decomposition. -/
theorem afterLast_some (p : List Char) :
    ∀ l r, afterLast p l = some r → ∃ d, l = d ++ p ++ r := by
  intro l
  induction l with
  | nil =>
    intro r h
    cases h
  | cons c t ih =>
    intro r h
    unfold afterLast at h
    cases hat : afterLast p t with
    | some r2 =>
      simp only [hat, Option.some.injEq] at h
      subst h
      obtain ⟨d, hd⟩ := ih r2 hat
      exact ⟨c :: d, by simp [hd]⟩
    | none =>
      simp only [hat] at h
      by_cases hpre : p.isPrefixOf (c :: t) = true
      · rw [if_pos hpre] at h
        injection h with h
        rw [ List.isPrefixOf_iff_prefix] at hpre
        obtain ⟨t2, ht2⟩ := hpre
        refine ⟨[], ?_⟩
        rw [← h, ← ht2, List.drop_left]
        simp
      · rw [if_neg hpre] at h
        cases h

/-- Helper: a successful `firstSplitAfter` yields a decomposition. -/
theorem firstSplitAfter_some (p : List Char) :
    ∀ l r, firstSplitAfter p l = some r → ∃ a, l = a ++ p ++ r := by
  intro l
  induction l with
  | nil =>
    intro r h
    cases h
  | cons c t ih =>
    intro r h
    unfold firstSplitAfter at h
    split at h
    next hpre =>
      injection h with h
      rw [ List.isPrefixOf_iff_prefix] at hpre
      obtain ⟨t2, ht2⟩ := hpre
      refine ⟨[], ?_⟩
      rw [← h, ← ht2, List.drop_left]
      simp
    next =>
      obtain ⟨a, ha⟩ := ih r h
      exact ⟨c :: a, by simp [ha]⟩

/-- Helper: `firstSplitAfter` on a string containing the pattern returns a
part ending in the given tail. -/
theorem firstSplitAfter_append (p : List Char) (hp : p ≠ []) :
    ∀ a tail, ∃ e, firstSplitAfter p (a ++ p ++ tail) = some (e ++ tail) := by
  intro a
  induction a with
  | nil =>
    intro tail
    refine ⟨[], ?_⟩
    obtain ⟨q, qs, rfl⟩ : ∃ q qs, p = q :: qs := by
      cases p with
      | nil => exact absurd rfl hp
      | cons q qs => exact ⟨q, qs, rfl⟩
    show firstSplitAfter (q :: qs) (q :: (qs ++ tail)) = some ([] ++ tail)
    unfold firstSplitAfter
    have hpre : (q :: qs).isPrefixOf (q :: (qs ++ tail)) = true := by
      rw [ List.isPrefixOf_iff_prefix]
      exact ⟨tail, by simp⟩
    rw [if_pos hpre]
    congr 1
    rw [show q :: (qs ++ tail) = (q :: qs) ++ tail from rfl, List.drop_left]
    simp
  | cons x a2 ih =>
    intro tail
    by_cases hpre : p.isPrefixOf (x :: (a2 ++ p ++ tail)) = true
    · refine ⟨((x :: a2) ++ p).drop p.length, ?_⟩
      show firstSplitAfter p (x :: (a2 ++ p ++ tail)) = _
      unfold firstSplitAfter
      rw [if_pos hpre]
      congr 1
      have hassoc : x :: (a2 ++ p ++ tail) = ((x :: a2) ++ p) ++ tail := by simp
      rw [hassoc, List.drop_append_eq_append_drop]
      have hlen : p.length - ((x :: a2) ++ p).length = 0 := by
        simp only [List.length_append, List.length_cons]
        omega
      rw [hlen]
      rfl
    · obtain ⟨e, he⟩ := ih tail
      refine ⟨e, ?_⟩
      show firstSplitAfter p (x :: (a2 ++ p ++ tail)) = _
      unfold firstSplitAfter
      rw [if_neg hpre]
      exact he

/-- Helper: skipping a character that cannot start the pattern preserves
`hasSub`. -/
theorem hasSub_cons_of_ne (q : Char) (qs : List Char) (x : Char) (l : List Char)
    (hqx : q ≠ x) : hasSub (q :: qs) (x :: l) = hasSub (q :: qs) l := by
  rw [hasSub]
  have : (q :: qs).isPrefixOf (x :: l) = false := by
    rw [Bool.eq_false_iff]
    intro hc
    rw [ List.isPrefixOf_iff_prefix] at hc
    obtain ⟨t2, ht2⟩ := hc
    rw [List.cons_append] at ht2
    exact hqx ((List.cons.injEq _ _ _ _).mp ht2).1
  rw [this, Bool.false_or]

/-- Helper: the marker cannot occur inside `"targetgroup/" ++ c` unless it
occurs in `c` (no character of `targetgroup/` is a colon). -/
theorem hasSub_marker_shift (c : List Char) (hno : hasSub tgMarker c = false) :
    hasSub tgMarker (targetgroupLit ++ c) = false := by
  have hm : tgMarker = ':' :: "targetgroup/".toList := rfl
  rw [show targetgroupLit ++ c =
    't' :: 'a' :: 'r' :: 'g' :: 'e' :: 't' :: 'g' :: 'r' :: 'o' :: 'u' :: 'p' :: '/' :: c
    from rfl]
  rw [hm]
  rw [hasSub_cons_of_ne _ _ _ _ (by decide), hasSub_cons_of_ne _ _ _ _ (by decide),
    hasSub_cons_of_ne _ _ _ _ (by decide), hasSub_cons_of_ne _ _ _ _ (by decide),
    hasSub_cons_of_ne _ _ _ _ (by decide), hasSub_cons_of_ne _ _ _ _ (by decide),
    hasSub_cons_of_ne _ _ _ _ (by decide), hasSub_cons_of_ne _ _ _ _ (by decide),
    hasSub_cons_of_ne _ _ _ _ (by decide), hasSub_cons_of_ne _ _ _ _ (by decide),
    hasSub_cons_of_ne _ _ _ _ (by decide), hasSub_cons_of_ne _ _ _ _ (by decide)]
  rw [← hm]
  exact hno

/-- Helper: a newline-free string is a single line. -/
theorem splitOnNl_no_nl : ∀ l : List Char, '\n' ∉ l → splitOnNl l = [l] := by
  intro l
  induction l with
  | nil =>
    intro _
    rfl
  | cons c t ih =>
    intro h
    have hc : ¬(c = '\n') := fun hc => h (hc ▸ List.mem_cons_self c t)
    have ht : '\n' ∉ t := fun ht => h (List.mem_cons_of_mem c ht)
    unfold splitOnNl
    rw [if_neg hc, ih ht]

/-- Helper: every piece of `splitOnNl` is a contiguous part of the input,
and the first piece is a prefix. -/
theorem splitOnNl_parts : ∀ l : List Char, ∃ hd tl, splitOnNl l = hd :: tl ∧
    (∃ v, l = hd ++ v) ∧ (∀ x, x ∈ tl → ∃ u v, l = u ++ x ++ v) := by
  intro l
  induction l with
  | nil =>
    exact ⟨[], [], rfl, ⟨[], rfl⟩, by intro x hx; cases hx⟩
  | cons c t ih =>
    obtain ⟨hd, tl, hsp, ⟨v, hv⟩, htl⟩ := ih
    by_cases hc : c = '\n'
    · refine ⟨[], hd :: tl, ?_, ⟨c :: t, rfl⟩, ?_⟩
      · unfold splitOnNl
        rw [if_pos hc, hsp]
      · intro x hx
        cases hx with
        | head =>
          exact ⟨[c], v, by simp [hv]⟩
        | tail _ hx2 =>
          obtain ⟨u, w, huw⟩ := htl x hx2
          exact ⟨c :: u, w, by simp [huw]⟩
    · refine ⟨c :: hd, tl, ?_, ⟨v, by simp [hv]⟩, ?_⟩
      · unfold splitOnNl
        rw [if_neg hc, hsp]
      · intro x hx
        obtain ⟨u, w, huw⟩ := htl x hx
        exact ⟨c :: u, w, by simp [huw]⟩

/-- Helper: the executable ARN-pattern test agrees with the declarative
decomposition. -/
theorem hasArnMarkerPattern_iff : ∀ l : List Char, hasArnMarkerPattern l = true ↔
    ∃ a b c, l = a ++ arnLit ++ b ++ tgMarker ++ c := by
  intro l
  induction l with
  | nil =>
    constructor
    · intro h
      cases h
    · rintro ⟨a, b, c, habc⟩
      exfalso
      have : ([] : List Char).length = (a ++ arnLit ++ b ++ tgMarker ++ c).length :=
        congrArg List.length habc
      simp [arnLit, tgMarker] at this
      omega
  | cons x t ih =>
    rw [hasArnMarkerPattern, Bool.or_eq_true]
    constructor
    · rintro (h | h)
      · rw [Bool.and_eq_true, List.isPrefixOf_iff_prefix] at h
        obtain ⟨⟨t2, ht2⟩, hsub⟩ := h
        rw [← ht2, List.drop_left] at hsub
        obtain ⟨b, c, hbc⟩ := (hasSub_iff tgMarker t2).mp hsub
        exact ⟨[], b, c, by rw [← ht2, hbc]; simp⟩
      · obtain ⟨a, b, c, habc⟩ := ih.mp h
        exact ⟨x :: a, b, c, by simp [habc]⟩
    · rintro ⟨a, b, c, habc⟩
      cases a with
      | nil =>
        left
        rw [Bool.and_eq_true, List.isPrefixOf_iff_prefix]
        simp only [List.nil_append] at habc
        constructor
        · exact ⟨b ++ tgMarker ++ c, by rw [habc]; simp⟩
        · rw [habc, show arnLit ++ b ++ tgMarker ++ c = arnLit ++ (b ++ tgMarker ++ c) by
            simp, List.drop_left]
          exact (hasSub_iff tgMarker _).mpr ⟨b, c, by simp⟩
      | cons a0 a2 =>
        right
        apply ih.mpr
        refine ⟨a2, b, c, ?_⟩
        rw [List.cons_append] at habc
        simp only [List.cons_append, List.append_assoc] at habc ⊢
        exact ((List.cons.injEq _ _ _ _).mp habc).2

/-- C10: `lbTargetGroupSuffixFromARN` is total: a nil pointer yields the
empty string; a string without the `arn:` ... `:targetgroup/` pattern (the
executable test agreeing with the declarative decomposition, second
conjunct) yields the empty string; and a newline-free matching ARN whose
captured suffix contains no further marker yields `targetgroup/` followed by
the captured suffix. -/
theorem lbSuffixFromARN_spec :
    lbTargetGroupSuffixFromARN none = [] ∧
    (∀ l, hasArnMarkerPattern l = true ↔
      ∃ a b c, l = a ++ arnLit ++ b ++ tgMarker ++ c) ∧
    (∀ s, hasArnMarkerPattern s = false → lbTargetGroupSuffixFromARN (some s) = []) ∧
    (∀ a b c, '\n' ∉ (a ++ arnLit ++ b ++ tgMarker ++ c) →
      hasSub tgMarker c = false →
      lbTargetGroupSuffixFromARN (some (a ++ arnLit ++ b ++ tgMarker ++ c)) =
        targetgroupLit ++ c) := by
  have hsome : ∀ s : List Char, lbTargetGroupSuffixFromARN (some s) =
      (match goRegexpFindAllTargetGroup s with
       | [suffix] => targetgroupLit ++ suffix
       | _ => []) := fun _ => rfl
  refine ⟨rfl, hasArnMarkerPattern_iff, ?_, ?_⟩
  · intro s hpat
    rw [hsome s]
    have hall : ∀ line ∈ splitOnNl s, singleLineMatch line = none := by
      intro line hline
      cases hsm : singleLineMatch line with
      | none => rfl
      | some r =>
        exfalso
        unfold singleLineMatch at hsm
        cases hfs : firstSplitAfter arnLit line with
        | none =>
          simp only [hfs] at hsm
          cases hsm
        | some rest =>
          simp only [hfs] at hsm
          obtain ⟨a, ha⟩ := firstSplitAfter_some arnLit line rest hfs
          obtain ⟨d, hd⟩ := afterLast_some tgMarker rest r hsm
          obtain ⟨hd0, tl, hsp, ⟨v0, hv0⟩, htl⟩ := splitOnNl_parts s
          have hinf : ∃ u v, s = u ++ line ++ v := by
            rw [hsp] at hline
            cases hline with
            | head => exact ⟨[], v0, by simpa using hv0⟩
            | tail _ hmem => exact htl line hmem
          obtain ⟨u, v, huv⟩ := hinf
          have hs : hasArnMarkerPattern s = true := by
            apply (hasArnMarkerPattern_iff s).mpr
            refine ⟨u ++ a, d, r ++ v, ?_⟩
            rw [huv, ha, hd]
            simp [List.append_assoc]
          rw [hpat] at hs
          cases hs
    have heq : goRegexpFindAllTargetGroup s = [] := by
      unfold goRegexpFindAllTargetGroup
      exact List.filterMap_eq_nil_iff.mpr hall
    rw [heq]
  · intro a b c hnl hno
    have hsm : singleLineMatch (a ++ arnLit ++ b ++ tgMarker ++ c) = some c := by
      unfold singleLineMatch
      obtain ⟨e, he⟩ := firstSplitAfter_append arnLit (by decide) a (b ++ tgMarker ++ c)
      have hre : a ++ arnLit ++ b ++ tgMarker ++ c =
          a ++ arnLit ++ (b ++ tgMarker ++ c) := by
        simp [List.append_assoc]
      rw [hre]
      simp only [he]
      rw [show e ++ (b ++ tgMarker ++ c) = (e ++ b) ++ tgMarker ++ c by simp]
      exact afterLast_append ':' targetgroupLit c (hasSub_marker_shift c hno) (e ++ b)
    rw [hsome (a ++ arnLit ++ b ++ tgMarker ++ c)]
    have heq : goRegexpFindAllTargetGroup (a ++ arnLit ++ b ++ tgMarker ++ c) = [c] := by
      unfold goRegexpFindAllTargetGroup
      rw [splitOnNl_no_nl _ hnl]
      simp only [List.filterMap_cons, List.filterMap_nil, hsm]
    rw [heq]

/-- C10 witness: evaluating the theorem on a matching single-line ARN and on
a non-matching string. -/
theorem lbSuffixFromARN_spec_witness :
    lbTargetGroupSuffixFromARN
        (some ([] ++ arnLit ++ "aws:elb:acc".toList ++ tgMarker ++ "tg/1".toList)) =
      targetgroupLit ++ "tg/1".toList ∧
    lbTargetGroupSuffixFromARN (some "hello".toList) = [] :=
  ⟨lbSuffixFromARN_spec.2.2.2 [] "aws:elb:acc".toList "tg/1".toList (by decide) (by decide),
    lbSuffixFromARN_spec.2.2.1 "hello".toList (by decide)⟩

end LbTargetGroup
